import Mathlib

/-!
Verification of the Robo-Uber fleet-dispatch core (dispatcher.py, taxi.py).

The Python code is shallowly embedded: Python dicts become insertion-ordered
association lists (updates keep the key position, fresh keys are appended,
matching CPython dict semantics), floats become exact rationals, `None`
becomes `Option.none`, and a raised exception becomes `Except.error`.
The simulation world (`self._parent` / `self._world`), which is outside the
two source files, is modelled as a record of the read-only data the embedded
code consults: its identity, `travelTime`, `simTime`, the length of its fare
queue and the on-duty flags of its taxi list.  Outbound calls into the world
(`broadcastFare`, `allocateFare`, `cancelFare`, `transmitFareBid`) are
collected as messages.
-/

namespace RoboUber

/-- A node location, the `(x, y)` index tuple used throughout the Python code. -/
abbrev Coord := Int × Int

/-! ### Python dict as an insertion-ordered association list -/

/-- `d[k]` lookup returning `none` when the key is absent. -/
def alLookup {κ α : Type} [DecidableEq κ] : List (κ × α) → κ → Option α
  | [], _ => none
  | (k', v) :: rest, k => if k = k' then some v else alLookup rest k

/-- `d[k] = v`: update in place when the key exists (keeping its position),
append otherwise — CPython dict insertion-order semantics. -/
def alInsert {κ α : Type} [DecidableEq κ] : List (κ × α) → κ → α → List (κ × α)
  | [], k, v => [(k, v)]
  | (k', v') :: rest, k, v =>
      if k = k' then (k, v) :: rest else (k', v') :: alInsert rest k v

/-- `del d[k]`: removes the (first, hence only) binding of `k`. -/
def alErase {κ α : Type} [DecidableEq κ] : List (κ × α) → κ → List (κ × α)
  | [], _ => []
  | (k', v') :: rest, k => if k = k' then rest else (k', v') :: alErase rest k

/-- Python list indexing `l[i]` including negative-index wraparound;
`none` models an `IndexError`. -/
def pyResolveIndex (len : Nat) (i : Int) : Option Nat :=
  if 0 ≤ i then (if i < (len : Int) then some i.toNat else none)
  else if 0 ≤ (len : Int) + i then some ((len : Int) + i).toNat
  else none

/-! ### Dispatcher data model (dispatcher.py) -/

/-- `FareEntry.__init__` (dispatcher.py lines 9-20): origin, destination,
call time, price (0 until priced), allocated taxi (-1 if none), bidder list. -/
structure FareEntry where
  origin : Coord
  destination : Coord
  calltime : Int
  price : ℚ
  taxi : Int
  bidders : List Nat
  deriving DecidableEq, Repr

/-- The attributes of one taxi object that the dispatcher reads
(`onDuty`, `_account`, `currentLocation`, `income`, `lastFareCompletionTime`). -/
structure TaxiView where
  onDuty : Bool
  account : ℚ
  loc : Coord
  income : ℚ
  lastFareCompletionTime : ℚ
  deriving DecidableEq, Repr

/-- The read-only data of the dispatcher's world (`self._parent`):
its identity, `travelTime`, `simTime`, `len(self._parent._fareQ)` and the
on-duty flags of `self._parent._taxis`. -/
structure DWorld where
  id : Nat
  travelTime : Coord → Coord → ℚ
  simTime : ℚ
  fareQLen : Nat
  worldTaxisOnDuty : List Bool

/-- Outbound dispatcher-to-world calls.  `cancel` carries the resolved
(Python, possibly negative-wrapped) index of the taxi object passed to
`self._parent.cancelFare`. -/
inductive DMsg : Type where
  | broadcast (origin destination : Coord) (price : ℚ)
  | allocate (origin : Coord) (taxi : Nat)
  | cancel (origin : Coord) (taxi : Nat)
  deriving DecidableEq, Repr

/-- The fare board: a nested dict origin → destination → call time → FareEntry. -/
abbrev Board := List (Coord × List (Coord × List (Int × FareEntry)))

/-- Dispatcher state (dispatcher.py lines 34-51): the world it lives in
(by identity), revenue, taxi roster, fare board and the two ride counters. -/
structure DispatcherState where
  parent : Nat
  revenue : ℚ
  taxis : List TaxiView
  fareBoard : Board
  completedRides : Nat
  abandonedRides : Nat
  deriving DecidableEq, Repr

/-- Three-level board lookup `self._fareBoard[origin][destination][time]`. -/
def boardLookup (b : Board) (o d : Coord) (t : Int) : Option FareEntry :=
  match alLookup b o with
  | none => none
  | some dests =>
    match alLookup dests d with
    | none => none
    | some times => alLookup times t

/-! ### Dispatcher pricing (dispatcher.py `_computeSupplyRatio`, `_costFare`) -/

/-- `sum(1 for car in self._parent._taxis if car.onDuty)`. -/
def activeTaxis (w : DWorld) : Nat := w.worldTaxisOnDuty.countP (fun b => b)

/-- `_computeSupplyRatio` (dispatcher.py lines 203-214).  `none` models the
Python `float('inf')` returned when no taxi is on duty; otherwise the ratio
`max(1, len(parent._fareQ) / active_taxis)` as an exact rational. -/
def computeSupplyRatio (w : DWorld) : Option ℚ :=
  if activeTaxis w = 0 then none
  else some (max 1 ((w.fareQLen : ℚ) / (activeTaxis w : ℚ)))

/-- `_costFare` (dispatcher.py lines 216-235):
`min((25 + travelTime) * supplyRatio, 10 * travelTime)`.
When the supply ratio is `float('inf')` the Python computes
`min(inf * (25 + tt), 10 * tt) = 10 * tt` (travel times are non-negative,
so `25 + tt > 0` and the product is `+inf`). -/
def costFare (w : DWorld) (rideRequest : FareEntry) : ℚ :=
  let travelTime := w.travelTime rideRequest.origin rideRequest.destination
  match computeSupplyRatio w with
  | none => 10 * travelTime
  | some supplyRatio => min ((25 + travelTime) * supplyRatio) (10 * travelTime)

/-! ### Dispatcher allocation (dispatcher.py `_allocateFare`) -/

/-- `pickup_duration` (dispatcher.py lines 257-262): travel time from the
taxi's current location to the fare origin, floored to `0.1` when it is
exactly zero. -/
def pickupDuration (w : DWorld) (t : TaxiView) (origin : Coord) : ℚ :=
  let d := w.travelTime t.loc origin
  if d = 0 then 1/10 else d

/-- `priority_score` (dispatcher.py lines 265-278) for one candidate taxi:
`0.4 * (1/pickup) + 0.3 * (1/(1+income)) + 0.2 * (idle/1000) + 0.1 * (1/(1+bidders))`.
Every taxi object has `lastFareCompletionTime` (set in the constructor), so
the `hasattr` test in the source is always true. -/
def priorityScore (w : DWorld) (t : TaxiView) (origin : Coord) (bidderCount : Nat) : ℚ :=
  let pickup := pickupDuration w t origin
  let idle := w.simTime - t.lastFareCompletionTime
  (4/10) * (1 / pickup) + (3/10) * (1 / (1 + t.income))
    + (2/10) * (idle / 1000) + (1/10) * (1 / (1 + (bidderCount : ℚ)))

/-- Candidate eligibility in `_allocateFare` (dispatcher.py lines 252-255):
the bidder index is in range (`taxi_number < len(self._taxis)`), the taxi is
on duty and its account is strictly positive. -/
def eligB (taxis : List TaxiView) (i : Nat) : Bool :=
  match taxis.get? i with
  | none => false
  | some t => t.onDuty && decide (0 < t.account)

/-- The priority score of bidder `i` (its `TaxiView` looked up in the
roster); only consulted for eligible bidders, whose lookup succeeds. -/
def allocScore (w : DWorld) (taxis : List TaxiView) (origin : Coord)
    (bidderCount : Nat) (i : Nat) : ℚ :=
  match taxis.get? i with
  | some t => priorityScore w t origin bidderCount
  | none => 0

/-- One iteration of the candidate loop of `_allocateFare` (dispatcher.py
lines 251-283): skip ineligible bidders, otherwise keep the candidate with
the strictly higher score.  `highest_priority` starts at `-inf`, so the
first eligible candidate always replaces the empty accumulator. -/
def allocStep (elig : Nat → Bool) (score : Nat → ℚ)
    (acc : Option (Nat × ℚ)) (i : Nat) : Option (Nat × ℚ) :=
  if elig i then
    match acc with
    | none => some (i, score i)
    | some (j, b) => if b < score i then some (i, score i) else some (j, b)
  else acc

/-- The candidate-selection loop of `_allocateFare` (dispatcher.py
lines 244-283), a fold of `allocStep` over the bidder list.  (The unused
`taxis_engaged` computation in the source is dead code.) -/
def allocSelect (w : DWorld) (taxis : List TaxiView) (origin : Coord)
    (bidders : List Nat) : Option (Nat × ℚ) :=
  bidders.foldl
    (allocStep (eligB taxis) (allocScore w taxis origin bidders.length)) none

/-- `_allocateFare` tail (dispatcher.py lines 286-288): record the winner on
the fare and instruct the world to notify it; no winner means no change. -/
def allocateFare (w : DWorld) (taxis : List TaxiView) (e : FareEntry) :
    FareEntry × List DMsg :=
  match allocSelect w taxis e.origin e.bidders with
  | none => (e, [])
  | some (i, _) => ({ e with taxi := (i : Int) }, [DMsg.allocate e.origin i])

/-! ### Dispatcher clock tick (dispatcher.py `clockTick`) -/

/-- The per-fare body of the `clockTick` sweep (dispatcher.py lines 179-187):
price an unpriced fare and broadcast it, else run allocation on a priced,
unallocated fare with at least one bidder. -/
def tickEntry (w : DWorld) (taxis : List TaxiView) (e : FareEntry) :
    FareEntry × List DMsg :=
  if e.price = 0 then
    let p := costFare w e
    ({ e with price := p }, [DMsg.broadcast e.origin e.destination p])
  else if e.taxi < 0 ∧ e.bidders ≠ [] then allocateFare w taxis e
  else (e, [])

/-- Insertion sort of the call-time level by key: `sorted(list(keys))`. -/
def insertSortedTime (p : Int × FareEntry) :
    List (Int × FareEntry) → List (Int × FareEntry)
  | [] => [p]
  | q :: rest => if p.1 ≤ q.1 then p :: q :: rest else q :: insertSortedTime p rest

/-- `sorted` over the call-time dict items. -/
def sortTimes : List (Int × FareEntry) → List (Int × FareEntry)
  | [] => []
  | p :: rest => insertSortedTime p (sortTimes rest)

/-- One `clockTick` of the dispatcher (dispatcher.py lines 170-187): sweep
origins in board order, destinations in board order, call times in sorted
order, updating each fare in place and collecting the outbound calls in
sweep order.  Values are mutated in place in the Python, so key order of the
board is unchanged. -/
def clockTick (w : DWorld) (st : DispatcherState) : DispatcherState × List DMsg :=
  if st.parent = w.id then
    let board' : Board := st.fareBoard.map (fun od =>
      (od.1, od.2.map (fun dd =>
        (dd.1, dd.2.map (fun te => (te.1, (tickEntry w st.taxis te.2).1))))))
    let msgs : List DMsg := st.fareBoard.flatMap (fun od =>
      od.2.flatMap (fun dd =>
        (sortTimes dd.2).flatMap (fun te => (tickEntry w st.taxis te.2).2)))
    ({ st with fareBoard := board' }, msgs)
  else (st, [])

/-! ### Dispatcher runtime event handlers -/

/-- `newFare` (dispatcher.py lines 112-125).  Note the source's
`self._completedRides += 1` in the branch where the origin already exists
but the destination level is fresh. -/
def newFare (w : DWorld) (origin destination : Coord) (time : Int)
    (st : DispatcherState) : DispatcherState :=
  if w.id = st.parent then
    let fare : FareEntry := ⟨origin, destination, time, 0, -1, []⟩
    let st1 : DispatcherState :=
      match alLookup st.fareBoard origin with
      | some dests =>
        if (alLookup dests destination).isNone then
          { st with
            fareBoard := alInsert st.fareBoard origin (alInsert dests destination []),
            completedRides := st.completedRides + 1 }
        else st
      | none =>
        { st with fareBoard := alInsert st.fareBoard origin [(destination, [])] }
    let dests1 := (alLookup st1.fareBoard origin).getD []
    let times1 := (alLookup dests1 destination).getD []
    { st1 with
      fareBoard :=
        alInsert st1.fareBoard origin
          (alInsert dests1 destination (alInsert times1 time fare)) }
  else st

/-- `cancelFare` (dispatcher.py lines 128-142).  When the call-time key
exists, the source unconditionally evaluates
`self._taxis[self._fareBoard[origin][destination][calltime].taxi]` — with
Python negative indexing when the fare is unassigned (`taxi == -1`) — and
passes that taxi to `self._parent.cancelFare`; an out-of-range index raises
`IndexError` (modelled as `Except.error`).  Then the entry is deleted and
the now-empty intermediate levels are pruned. -/
def cancelFare (w : DWorld) (origin destination : Coord) (calltime : Int)
    (st : DispatcherState) : Except String (DispatcherState × List DMsg) :=
  if w.id = st.parent then
    match alLookup st.fareBoard origin with
    | none => .ok (st, [])
    | some dests =>
      match alLookup dests destination with
      | none => .ok (st, [])
      | some times =>
        match alLookup times calltime with
        | some entry =>
          match pyResolveIndex st.taxis.length entry.taxi with
          | none => .error "IndexError: list index out of range"
          | some notified =>
            let times' := alErase times calltime
            let dests' :=
              if times' = [] then alErase dests destination
              else alInsert dests destination times'
            let board' :=
              if dests' = [] then alErase st.fareBoard origin
              else alInsert st.fareBoard origin dests'
            .ok ({ st with fareBoard := board',
                           abandonedRides := st.abandonedRides + 1 },
                 [DMsg.cancel origin notified])
        | none =>
          -- the two pruning `if len(...) == 0` tests still run
          let dests' :=
            if times = [] then alErase dests destination
            else alInsert dests destination times
          let board' :=
            if dests' = [] then alErase st.fareBoard origin
            else alInsert st.fareBoard origin dests'
          .ok ({ st with fareBoard := board' }, [])
  else .ok (st, [])

/-- `recvPayment` (dispatcher.py lines 160-163). -/
def recvPayment (w : DWorld) (amount : ℚ) (st : DispatcherState) : DispatcherState :=
  if st.parent = w.id then { st with revenue := st.revenue + amount } else st

/-! ### Taxi data model (taxi.py) -/

/-- `FareInfo.__init__` (taxi.py lines 11-20): destination, price, ternary
bid flag (-1 no / 0 undecided / 1 yes), allocated flag. -/
structure FareInfo where
  destination : Coord
  price : ℚ
  bid : Int
  allocated : Bool
  deriving DecidableEq, Repr

/-- A passenger aboard or waiting at a node; the taxi code only reads its
destination. -/
structure Passenger where
  destination : Coord
  deriving DecidableEq, Repr

/-- The taxi's map: node → dict of neighbour → (direction, distance),
see the comment at taxi.py lines 77-78. -/
abbrev TaxiMap := List (Coord × List (Coord × (Int × ℚ)))

/-- The read-only data of the taxi's world (`self._world`) consulted by the
embedded code: `simTime`, `travelTime`, per-node `traffic`, and the node
responses to `dropoffFare` and `pickupFare`. -/
structure TWorld where
  simTime : ℚ
  travelTime : Coord → Coord → ℚ
  traffic : Coord → ℚ
  dropoffOK : Coord → Passenger → Int → Bool
  pickupAt : Coord → Int → Option Passenger

/-- Key of `self._availableFares`: `(call time, origin x, origin y)`. -/
abbrev FareKey := ℚ × Int × Int

/-- Taxi state (taxi.py lines 57-108), restricted to the fields the embedded
methods read or write.  `loc` models `self._loc.index` for a taxi that has
entered the world; `path` is `some list` for a Python list and `none` for
the Python `None` that `_planPath` returns on failure. -/
structure TaxiState where
  onDuty : Bool
  offDutyTime : ℚ
  account : ℚ
  loc : Coord
  direction : Int
  path : Option (List Coord)
  passenger : Option Passenger
  income : ℚ
  lastFareCompletionTime : ℚ
  maxFareWait : ℚ
  taxiMap : TaxiMap
  availableFares : List (FareKey × FareInfo)
  deriving DecidableEq, Repr

/-- Dispatcher-to-taxi messages handled by `recvMsg` (taxi.py lines 306-329). -/
inductive TMsg : Type where
  | fareAdvice (origin destination : Coord) (price : ℚ)
  | fareAlloc (origin destination : Coord)
  | farePay (amount : ℚ)
  | fareCancel (origin : Coord)
  deriving DecidableEq, Repr

/-- Mark the first fare whose origin and destination match as allocated
(`recvMsg` FARE_ALLOC branch, taxi.py lines 314-319). -/
def markAllocated (origin destination : Coord) :
    List (FareKey × FareInfo) → List (FareKey × FareInfo)
  | [] => []
  | (k, fi) :: rest =>
    if k.2.1 = origin.1 ∧ k.2.2 = origin.2 then
      if fi.destination.1 = destination.1 ∧ fi.destination.2 = destination.2 then
        (k, { fi with allocated := true }) :: rest
      else (k, fi) :: markAllocated origin destination rest
    else (k, fi) :: markAllocated origin destination rest

/-- Delete the first fare whose origin matches (`recvMsg` FARE_CANCEL
branch, taxi.py lines 325-329). -/
def dropByOrigin (origin : Coord) :
    List (FareKey × FareInfo) → List (FareKey × FareInfo)
  | [] => []
  | (k, fi) :: rest =>
    if k.2.1 = origin.1 ∧ k.2.2 = origin.2 then rest
    else (k, fi) :: dropByOrigin origin rest

/-- `recvMsg` (taxi.py lines 306-329).  The FARE_PAY branch adds the amount
to `self._account` only; `self.income` is not touched anywhere. -/
def recvMsg (w : TWorld) (msg : TMsg) (st : TaxiState) : TaxiState :=
  match msg with
  | .fareAdvice origin destination price =>
    let fi : FareInfo := ⟨destination, price, 0, false⟩
    { st with availableFares :=
        alInsert st.availableFares (w.simTime, origin.1, origin.2) fi }
  | .fareAlloc origin destination =>
    { st with availableFares := markAllocated origin destination st.availableFares }
  | .farePay amount => { st with account := st.account + amount }
  | .fareCancel origin =>
    { st with availableFares := dropByOrigin origin st.availableFares }

/-! ### Taxi bid policy (taxi.py `_bidOnFare`) -/

/-- `_bidOnFare` (taxi.py lines 398-440), translated literally with the
decimal constants as exact rationals. -/
def bidOnFare (w : TWorld) (st : TaxiState) (time : ℚ) (origin destination : Coord)
    (price : ℚ) : Bool :=
  if st.passenger.isSome ∨ st.availableFares.any (fun kv => kv.2.allocated) then
    false
  else
    let travelToOrigin := w.travelTime st.loc origin
    let travelToDestination := w.travelTime origin destination
    let rootTraffic := w.traffic origin
    let trafficMultiplier := 1 + rootTraffic / 10
    let adjustedTimeToOrigin := travelToOrigin * trafficMultiplier
    let adjustedTimeToDestination := travelToDestination * trafficMultiplier
    let adjustedTotalCost := (adjustedTimeToOrigin + adjustedTimeToDestination) * (11/10)
    if price < adjustedTotalCost * (3/2) then false
    else
      let timeUntilExpiry := st.maxFareWait - (w.simTime - time)
      if timeUntilExpiry < adjustedTimeToOrigin then false
      else
        let idleTimeScore := (w.simTime - st.lastFareCompletionTime) / 1000
        let earningScore := 1 / (1 + st.income)
        let proximityScore := max 0 (1 - adjustedTimeToOrigin / 30)
        let totalScore := (4/10) * proximityScore + (3/10) * earningScore
          + (3/10) * idleTimeScore
        let dynamicThreshold : ℚ := if st.income < 100 then 1/2 else 7/10
        dynamicThreshold < totalScore

/-! ### Taxi path planner (taxi.py `_planPath`)

The source is an A* loop over the taxi's map: a heap of `(priority, node)`
pairs, a `cost_from_start` dict initialised to `float('inf')` on every map
key, and a `path_trace` parent dict.  Infinite float costs are modelled as
`Option.none` over an otherwise exact rational cost; the heuristic
`math.sqrt((a0-b0)**2 + (a1-b1)**2)` is a floating-point Euclidean distance
and is passed in as a rational-valued parameter `h` (each claim instantiates
it with the exact Euclidean values of the nodes involved).  A read of
`cost_from_start[n]` for an `n` that is not a map key raises `KeyError` in
Python and is an `Except.error` here; the unbounded `while` loop takes fuel
and reports exhaustion as a distinct error. -/

/-- A cost that may be `float('inf')` (`none`). -/
abbrev QInf := Option ℚ

/-- `a + w` where `a` may be infinite. -/
def qiAdd (a : QInf) (q : ℚ) : QInf :=
  match a with
  | none => none
  | some c => some (c + q)

/-- `a < b` on possibly-infinite costs: `inf` is greater than everything and
not less than itself. -/
def qiLt (a b : QInf) : Bool :=
  match a, b with
  | none, _ => false
  | some _, none => true
  | some x, some y => decide (x < y)

/-- Lexicographic `<` on heap entries `(priority, (x, y))`, exactly Python's
tuple comparison used by `heapq`. -/
def entryLt (a b : QInf × Coord) : Bool :=
  qiLt a.1 b.1 ||
    (decide (a.1 = b.1) &&
      (decide (a.2.1 < b.2.1) || (decide (a.2.1 = b.2.1) && decide (a.2.2 < b.2.2))))

/-- `heapq.heappop`: remove and return the least entry (first occurrence)
under the tuple order. -/
def popMin : List (QInf × Coord) → Option ((QInf × Coord) × List (QInf × Coord))
  | [] => none
  | e :: rest =>
    match popMin rest with
    | none => some (e, [])
    | some (m, rest') =>
      if entryLt m e then some (m, e :: rest') else some (e, rest)

/-- `path = [current]; while current in path_trace: current = trace[current];
path.append(current); return path[::-1]` — accumulating parents at the front
builds the reversed list directly.  Fuel bounds the chain length. -/
def traceBackAux (trace : List (Coord × Coord)) :
    Nat → Coord → List Coord → Except String (List Coord)
  | 0, _, _ => .error "fuel exhausted in path reconstruction"
  | fuel + 1, cur, acc =>
    match alLookup trace cur with
    | some parent => traceBackAux trace fuel parent (parent :: acc)
    | none => .ok acc

/-- The relaxation of all neighbours of a popped node `cur` (taxi.py
lines 372-381), threading cost map, parent trace and heap.  The source
re-reads `cost_from_start[current_node]` in every loop iteration, mirrored
by the lookup at the head of each step; an estimated total is pushed with
the entry rather than kept in the (write-only) `estimated_total_cost` dict. -/
def relaxAll (h : Coord → Coord → ℚ) (destination cur : Coord) :
    List (Coord × (Int × ℚ)) →
    List (Coord × QInf) → List (Coord × Coord) → List (QInf × Coord) →
    Except String (List (Coord × QInf) × List (Coord × Coord) × List (QInf × Coord))
  | [], cost, trace, heap => .ok (cost, trace, heap)
  | (nb, details) :: rest, cost, trace, heap =>
    match alLookup cost cur with
    | none => .error "KeyError: node not in cost_from_start"
    | some costCur =>
      match alLookup cost nb with
      | none => .error "KeyError: neighbour not in cost_from_start"
      | some old =>
        if qiLt (qiAdd costCur details.2) old then
          relaxAll h destination cur rest
            (alInsert cost nb (qiAdd costCur details.2))
            (alInsert trace nb cur)
            (heap ++ [(qiAdd (qiAdd costCur details.2) (h nb destination), nb)])
        else relaxAll h destination cur rest cost trace heap

/-- The `while to_explore:` loop of `_planPath` (taxi.py lines 362-383).
`.ok none` is the Python `return None` (heap exhausted, destination
unreachable); popping the destination reconstructs the path through
`path_trace` with reconstruction fuel `trace.length + 1`. -/
def planLoop (h : Coord → Coord → ℚ) (map : TaxiMap) (destination : Coord) :
    Nat → List (QInf × Coord) → List (Coord × QInf) → List (Coord × Coord) →
    Except String (Option (List Coord))
  | 0, _, _, _ => .error "fuel exhausted in search loop"
  | fuel + 1, heap, cost, trace =>
    match popMin heap with
    | none => .ok none
    | some ((_, cur), heap') =>
      if cur = destination then
        match traceBackAux trace (trace.length + 1) cur [cur] with
        | .ok path => .ok (some path)
        | .error e => .error e
      else
        match alLookup map cur with
        | none => .error "KeyError: node not in map"
        | some nbrs =>
          match relaxAll h destination cur nbrs cost trace heap' with
          | .ok (cost', trace', heap'') => planLoop h map destination fuel heap'' cost' trace'
          | .error e => .error e

/-- `cost_from_start = {node: inf for node in map}; cost_from_start[origin] = 0`. -/
def initCost (map : TaxiMap) (origin : Coord) : List (Coord × QInf) :=
  alInsert (map.map (fun kv => (kv.1, (none : QInf)))) origin (some 0)

/-- `_planPath` (taxi.py lines 340-383): `None` when the origin or
destination is not a map key; the single-node path when they coincide;
otherwise the A* loop seeded with the heap `[(0, origin)]`. -/
def planPath (h : Coord → Coord → ℚ) (map : TaxiMap) (origin destination : Coord)
    (fuel : Nat) : Except String (Option (List Coord)) :=
  if (alLookup map origin).isNone ∨ (alLookup map destination).isNone then .ok none
  else if origin = destination then .ok (some [origin])
  else planLoop h map destination fuel [(some 0, origin)] (initCost map origin) []

/-- Cumulative edge cost of a waypoint sequence over the taxi's map;
`none` when a step is not a map edge. -/
def pathCost (map : TaxiMap) : List Coord → Option ℚ
  | [] => some 0
  | [_] => some 0
  | a :: b :: rest =>
    match alLookup map a with
    | none => none
    | some nbrs =>
      match alLookup nbrs b with
      | none => none
      | some det => (pathCost map (b :: rest)).map (fun c => det.2 + c)

/-- Every consecutive pair of a waypoint sequence is a map edge. -/
def pathChain (map : TaxiMap) : List Coord → Bool
  | [] => true
  | [_] => true
  | a :: b :: rest =>
    (match alLookup map a with
     | none => false
     | some nbrs => (alLookup nbrs b).isSome) && pathChain map (b :: rest)

/-! ### Taxi clock tick (taxi.py `clockTick`) -/

/-- Taxi-to-world calls made during a tick. -/
inductive TOut : Type where
  | transmitBid (origin : Coord)
  deriving DecidableEq, Repr

/-- `len(self._path)`: a Python `TypeError` when `_path` is the `None` that
`_planPath` returns on failure. -/
def pathLen : Option (List Coord) → Except String Nat
  | some l => .ok l.length
  | none => .error "TypeError: object of type NoneType has no len()"

/-- One iteration of the available-fares loop (taxi.py lines 198-229),
threading the taxi state, the emitted bids and the `faresToRemove` list.
The short-circuit `len(self._path) == 0 and ...` evaluates the length first,
so a `None` path raises before the other conjuncts are tested. -/
def fareStep (h : Coord → Coord → ℚ) (w : TWorld) (fuel : Nat)
    (key : FareKey) (fi : FareInfo) (st : TaxiState) (outs : List TOut)
    (toRemove : List FareKey) :
    Except String (TaxiState × List TOut × List FareKey) := do
  let origin : Coord := (key.2.1, key.2.2)
  let n ← pathLen st.path
  if n = 0 ∧ fi.allocated ∧ st.passenger = none then
    if st.loc.1 = origin.1 ∧ st.loc.2 = origin.2 then
      let p := w.pickupAt st.loc st.direction
      match p with
      | some pass => do
        let r ← planPath h st.taxiMap st.loc pass.destination fuel
        pure ({ st with passenger := some pass, path := r }, outs, toRemove ++ [key])
      | none =>
        pure ({ st with passenger := none }, outs, toRemove ++ [key])
    else do
      let r ← planPath h st.taxiMap st.loc origin fuel
      pure ({ st with path := r }, outs, toRemove)
  else if st.maxFareWait < w.simTime - key.1 then
    pure (st, outs, toRemove ++ [key])
  else if fi.bid = 0 then
    if bidOnFare w st key.1 origin fi.destination fi.price then
      pure ({ st with availableFares :=
                alInsert st.availableFares key { fi with bid := 1 } },
            outs ++ [TOut.transmitBid origin], toRemove)
    else
      pure ({ st with availableFares :=
                alInsert st.availableFares key { fi with bid := -1 } },
            outs, toRemove)
  else pure (st, outs, toRemove)

/-- The available-fares loop over the dict items in order. -/
def fareLoop (h : Coord → Coord → ℚ) (w : TWorld) (fuel : Nat) :
    List (FareKey × FareInfo) → TaxiState → List TOut → List FareKey →
    Except String (TaxiState × List TOut × List FareKey)
  | [], st, outs, toRemove => .ok (st, outs, toRemove)
  | (key, fi) :: rest, st, outs, toRemove => do
    let (st', outs', toRemove') ← fareStep h w fuel key fi st outs toRemove
    fareLoop h w fuel rest st' outs' toRemove'

/-- `clockTick` of the taxi (taxi.py lines 177-240): off-duty check, drop-off
and replanning when the route is exhausted, the available-fares sweep (over a
snapshot of the items, values updated through the dict), deferred removal of
consumed or stale fares, and the fixed per-tick account decrement.  The
`for ... else: pass` in the source is a no-op. -/
def taxiClockTick (h : Coord → Coord → ℚ) (w : TWorld) (fuel : Nat)
    (st : TaxiState) : Except String (TaxiState × List TOut) := do
  let st :=
    if st.account ≤ 0 ∧ st.passenger = none then
      { st with onDuty := false, offDutyTime := w.simTime }
    else st
  let n ← pathLen st.path
  let st ←
    if n = 0 then
      match st.passenger with
      | some p =>
        if w.dropoffOK st.loc p st.direction then
          pure { st with passenger := none }
        else if p.destination ≠ st.loc then do
          let r ← planPath h st.taxiMap st.loc p.destination fuel
          pure { st with path := r }
        else pure st
      | none => pure st
    else pure st
  let (st, outs, toRemove) ← fareLoop h w fuel st.availableFares st [] []
  let st := { st with
    availableFares := toRemove.foldl (fun fs k => alErase fs k) st.availableFares }
  pure ({ st with account := st.account - 1 }, outs)

/-! ## Reduction lemmas for the Except monad and association lists -/

@[simp] lemma exceptBindOk {ε α β : Type} (a : α) (f : α → Except ε β) :
    (Except.ok a >>= f) = f a := rfl

@[simp] lemma exceptBindErr {ε α β : Type} (e : ε) (f : α → Except ε β) :
    ((Except.error e : Except ε α) >>= f) = Except.error e := rfl

@[simp] lemma exceptMapOk {ε α β : Type} (f : α → β) (a : α) :
    (f <$> (Except.ok a : Except ε α)) = Except.ok (f a) := rfl

@[simp] lemma exceptMapErr {ε α β : Type} (f : α → β) (e : ε) :
    (f <$> (Except.error e : Except ε α)) = (Except.error e : Except ε β) := rfl

@[simp] lemma exceptPureEq {ε α : Type} (a : α) :
    (pure a : Except ε α) = Except.ok a := rfl

lemma alLookup_map {κ α β : Type} [DecidableEq κ] (f : α → β) (l : List (κ × α)) (k : κ) :
    alLookup (l.map (fun kv => (kv.1, f kv.2))) k = (alLookup l k).map f := by
  induction l with
  | nil => rfl
  | cons p rest ih =>
    cases p with
    | mk k' v =>
      by_cases h : k = k' <;> simp [alLookup, h, ih]

lemma alLookup_insert_self {κ α : Type} [DecidableEq κ] (l : List (κ × α)) (k : κ) (v : α) :
    alLookup (alInsert l k v) k = some v := by
  induction l with
  | nil => simp [alInsert, alLookup]
  | cons p rest ih =>
    cases p with
    | mk k' v' =>
      by_cases h : k = k' <;> simp [alInsert, alLookup, h, ih]

lemma alLookup_insert_ne {κ α : Type} [DecidableEq κ] (l : List (κ × α)) (k k' : κ) (v : α)
    (h : k' ≠ k) : alLookup (alInsert l k v) k' = alLookup l k' := by
  induction l with
  | nil => simp [alInsert, alLookup, h]
  | cons p rest ih =>
    cases p with
    | mk k0 v0 =>
      by_cases hk : k = k0
      · subst hk; simp [alInsert, alLookup, h]
      · by_cases hk' : k' = k0 <;> simp [alInsert, alLookup, hk, hk', ih]

lemma alLookup_mem {κ α : Type} [DecidableEq κ] {l : List (κ × α)} {k : κ} {v : α}
    (h : alLookup l k = some v) : (k, v) ∈ l := by
  induction l with
  | nil => simp [alLookup] at h
  | cons p rest ih =>
    cases p with
    | mk k' v' =>
      by_cases hk : k = k'
      · subst hk
        simp [alLookup] at h
        simp [h]
      · simp [alLookup, hk] at h
        exact List.mem_cons_of_mem _ (ih h)

lemma alLookup_isSome_of_mem {κ α : Type} [DecidableEq κ] {l : List (κ × α)} {p : κ × α}
    (h : p ∈ l) : (alLookup l p.1).isSome := by
  induction l with
  | nil => simp at h
  | cons q rest ih =>
    cases q with
    | mk k' v' =>
      rcases List.mem_cons.mp h with h1 | h1
      · subst h1; simp [alLookup]
      · by_cases hk : p.1 = k' <;> simp [alLookup, hk, ih h1]

/-! ## Claim C10 — foreign-world calls are ignored -/

/-- C10: a call to `newFare`, `cancelFare`, `recvPayment`, or `clockTick`
whose parent argument is a world other than the dispatcher's own leaves the
dispatcher's state unchanged and makes no outbound call to the world. -/
theorem claimC10 (w : DWorld) (st : DispatcherState) (o d : Coord) (t : Int) (amt : ℚ)
    (hid : w.id ≠ st.parent) :
    newFare w o d t st = st ∧
    cancelFare w o d t st = .ok (st, []) ∧
    recvPayment w amt st = st ∧
    clockTick w st = (st, []) := by
  refine ⟨?_, ?_, ?_, ?_⟩
  · simp [newFare, hid]
  · simp [cancelFare, hid]
  · simp [recvPayment, Ne.symm hid]
  · simp [clockTick, Ne.symm hid]

/-- A world with identity 1, foreign to `stHome` below. -/
def wForeign : DWorld := ⟨1, fun _ _ => 0, 0, 0, []⟩

/-- A dispatcher living in the world with identity 0. -/
def stHome : DispatcherState := ⟨0, 0, [], [], 0, 0⟩

/-- Witness for C10: a concrete foreign-world call is a no-op. -/
theorem claimC10_witness :
    newFare wForeign (0, 0) (1, 1) 0 stHome = stHome ∧
    cancelFare wForeign (0, 0) (1, 1) 0 stHome = .ok (stHome, []) ∧
    recvPayment wForeign 5 stHome = stHome ∧
    clockTick wForeign stHome = (stHome, []) :=
  claimC10 wForeign stHome (0, 0) (1, 1) 0 5 (by decide)

/-! ## Claim C9 — newFare side effects (code bug) -/

/-- A world for the C9 scenario (its data is not consulted by `newFare`). -/
def w9 : DWorld := ⟨0, fun _ _ => 5, 0, 2, [true]⟩

/-- An existing fare from (0,0) to (1,1) already on the board. -/
def fare9 : FareEntry := ⟨(0, 0), (1, 1), 0, 30, -1, []⟩

/-- Dispatcher state whose board has origin (0,0) with destination (1,1). -/
def st9 : DispatcherState := ⟨0, 0, [], [((0, 0), [((1, 1), [(0, fare9)])])], 0, 0⟩

/-- C9 (code bug): `newFare` from the dispatcher's own world at an existing
origin but a fresh destination does insert the fresh unpriced fare at the
key, yet it also increments `_completedRides` (dispatcher.py line 119),
contradicting the claim that the ride counters are unchanged. -/
theorem claimC9 :
    boardLookup (newFare w9 (0, 0) (2, 2) 5 st9).fareBoard (0, 0) (2, 2) 5 =
      some ⟨(0, 0), (2, 2), 5, 0, -1, []⟩ ∧
    (newFare w9 (0, 0) (2, 2) 5 st9).completedRides = st9.completedRides + 1 := by
  decide

/-! ## Claim C7 — payment credits account but not income (code bug) -/

/-- A world for the C7 scenario (none of its data is consulted by the
FARE_PAY branch). -/
def w7 : TWorld := ⟨0, fun _ _ => 0, fun _ => 0, fun _ _ _ => false, fun _ _ => none⟩

/-- A taxi with account 3 and cumulative income 7. -/
def st7 : TaxiState :=
  ⟨true, 0, 3, (0, 0), 0, some [], none, 7, 0, 50, [], []⟩

/-- C7 (code bug): on a FARE_PAY message with amount 5 the account increases
by 5 but the cumulative income stays 7 — `recvMsg` (taxi.py line 322) only
executes `self._account += args['amount']`; `self.income` is never updated,
contradicting the claim that both increase by the amount. -/
theorem claimC7 :
    (recvMsg w7 (.farePay 5) st7).account = st7.account + 5 ∧
    (recvMsg w7 (.farePay 5) st7).income = st7.income ∧
    (recvMsg w7 (.farePay 5) st7).income ≠ st7.income + 5 := by
  refine ⟨rfl, rfl, ?_⟩
  norm_num [recvMsg, st7]

/-! ## Claim C6 — cancelFare notifies a taxi even when none is assigned
(code bug) -/

/-- A taxi view used twice in the C6 roster. -/
def t6 : TaxiView := ⟨true, 10, (0, 0), 0, 0⟩

/-- An UNASSIGNED fare (`taxi = -1`) from (2,2) to (3,3) at call time 1. -/
def fare6 : FareEntry := ⟨(2, 2), (3, 3), 1, 40, -1, []⟩

/-- Dispatcher with two taxis and the single unassigned fare on its board. -/
def st6 : DispatcherState := ⟨0, 0, [t6, t6], [((2, 2), [((3, 3), [(1, fare6)])])], 0, 0⟩

/-- The C6 world (its data is not consulted by `cancelFare`). -/
def w6 : DWorld := ⟨0, fun _ _ => 5, 0, 0, []⟩

/-- C6 (code bug): cancelling the unassigned fare removes the entry and
prunes the empty levels, but the source unconditionally notifies
`self._taxis[entry.taxi]` (dispatcher.py line 137); with `taxi = -1` Python
negative indexing notifies roster index 1 — the LAST registered taxi —
although the claim says an unassigned fare's cancellation notifies no taxi. -/
theorem claimC6 :
    cancelFare w6 (2, 2) (3, 3) 1 st6 =
      .ok ({ st6 with fareBoard := [], abandonedRides := 1 }, [DMsg.cancel (2, 2) 1]) := by
  norm_num [cancelFare, st6, w6, fare6, t6, alLookup, alErase, pyResolveIndex]

/-! ## Claim C8 — planner failure crashes the following tick (code bug) -/

/-- A two-node map that does not contain the passenger destination (9,9). -/
def map8 : TaxiMap := [((0, 0), [((0, 1), (0, 1))]), ((0, 1), [((0, 0), (2, 1))])]

/-- The C8 world: drop-off always fails (the taxi is not at the passenger
destination). -/
def w8 : TWorld := ⟨0, fun _ _ => 1, fun _ => 0, fun _ _ _ => false, fun _ _ => none⟩

/-- Heuristic stand-in for C8: `_planPath` rejects (9,9) at the membership
guard before ever consulting the heuristic, so its values are irrelevant. -/
def h8 : Coord → Coord → ℚ := fun _ _ => 0

/-- A taxi at (0,0) with an exhausted route carrying a passenger for the
unreachable destination (9,9). -/
def st8 : TaxiState :=
  ⟨true, 0, 100, (0, 0), 0, some [], some ⟨(9, 9)⟩, 0, 0, 50, map8, []⟩

/-- The state after the failed-drop-off tick: the replan stored the
planner's `None` in `_path` and the tick cost was charged. -/
def st8after : TaxiState := { st8 with path := none, account := 99 }

/-- C8 (code bug): the failed drop-off replans to the unreachable (9,9);
`_planPath` duly returns the explicit `None`, the tick completes and stores
it in `self._path` — but the NEXT tick evaluates `len(self._path)`
(taxi.py line 184) on `None` and raises `TypeError`, contradicting the
claim that every subsequent tick completes without an exception. -/
theorem claimC8 :
    taxiClockTick h8 w8 100 st8 = .ok (st8after, []) ∧
    taxiClockTick h8 w8 100 st8after =
      .error "TypeError: object of type NoneType has no len()" := by
  constructor
  · norm_num [taxiClockTick, st8, st8after, w8, h8, map8, pathLen, fareLoop,
      planPath, alLookup, Except.pure]
  · norm_num [taxiClockTick, st8, st8after, w8, pathLen]

/-! ## Allocation-fold characterization (for C2 and C3) -/

/-- The fold of `allocStep` keeps the accumulator through any run of
ineligible bidders. -/
lemma selectFold_none (elig : Nat → Bool) (score : Nat → ℚ) :
    ∀ (l : List Nat) (acc : Option (Nat × ℚ)),
      (∀ i ∈ l, elig i = false) → l.foldl (allocStep elig score) acc = acc := by
  intro l
  induction l with
  | nil => intro acc _; rfl
  | cons a l ih =>
    intro acc h
    rw [List.foldl_cons]
    have ha : elig a = false := h a (List.mem_cons_self a l)
    have hstep : allocStep elig score acc a = acc := by simp [allocStep, ha]
    rw [hstep]
    exact ih acc (fun i hi => h i (List.mem_cons_of_mem a hi))

/-- Characterization of the `_allocateFare` candidate fold: a `some` result
either is the untouched accumulator dominating every eligible bidder, or it
is an eligible bidder `i` carrying its own score, beating the accumulator
strictly, preceded (in bid order) only by strictly lower-scoring eligible
bidders, and dominating all eligible bidders. -/
lemma selectFold_spec (elig : Nat → Bool) (score : Nat → ℚ) :
    ∀ (l : List Nat) (acc : Option (Nat × ℚ)) (i : Nat) (s : ℚ),
      l.foldl (allocStep elig score) acc = some (i, s) →
      (acc = some (i, s) ∧ ∀ j ∈ l, elig j = true → score j ≤ s) ∨
      (elig i = true ∧ s = score i ∧
        ∃ l₁ l₂, l = l₁ ++ i :: l₂ ∧
          (∀ j b, acc = some (j, b) → b < s) ∧
          (∀ j ∈ l₁, elig j = true → score j < s) ∧
          (∀ j ∈ l, elig j = true → score j ≤ s)) := by
  intro l
  induction l with
  | nil =>
    intro acc i s h
    simp only [List.foldl_nil] at h
    exact Or.inl ⟨h, by simp⟩
  | cons a l ih =>
    intro acc i s h
    rw [List.foldl_cons] at h
    by_cases ha : elig a = true
    · -- the head is eligible: the accumulator may be replaced
      cases acc with
      | none =>
        have hstep : allocStep elig score none a = some (a, score a) := by
          simp [allocStep, ha]
        rw [hstep] at h
        rcases ih (some (a, score a)) i s h with ⟨hacc, hle⟩ | ⟨hel, hs, l₁, l₂, hdec, hbeat, hpre, hle⟩
        · -- accumulator (a, score a) survived the tail
          cases hacc
          refine Or.inr ⟨ha, rfl, [], l, by simp, ?_, ?_, ?_⟩
          · intro j b hjb; cases hjb
          · intro j hj; simp at hj
          · intro j hj hej
            rcases List.mem_cons.mp hj with rfl | hj
            · exact le_refl _
            · exact hle j hj hej
        · -- a later bidder won
          refine Or.inr ⟨hel, hs, a :: l₁, l₂, by simp [hdec], ?_, ?_, ?_⟩
          · intro j b hjb; cases hjb
          · intro j hj haj
            rcases List.mem_cons.mp hj with rfl | hj
            · exact hbeat j (score j) rfl
            · exact hpre j hj haj
          · intro j hj hej
            rcases List.mem_cons.mp hj with rfl | hj
            · exact le_of_lt (hbeat j (score j) rfl)
            · exact hle j hj hej
      | some jb =>
        rcases jb with ⟨j0, b0⟩
        by_cases hlt : b0 < score a
        · have hstep : allocStep elig score (some (j0, b0)) a = some (a, score a) := by
            simp [allocStep, ha, hlt]
          rw [hstep] at h
          rcases ih (some (a, score a)) i s h with ⟨hacc, hle⟩ | ⟨hel, hs, l₁, l₂, hdec, hbeat, hpre, hle⟩
          · cases hacc
            refine Or.inr ⟨ha, rfl, [], l, by simp, ?_, ?_, ?_⟩
            · intro j b hjb; cases hjb; exact hlt
            · intro j hj; simp at hj
            · intro j hj hej
              rcases List.mem_cons.mp hj with rfl | hj
              · exact le_refl _
              · exact hle j hj hej
          · refine Or.inr ⟨hel, hs, a :: l₁, l₂, by simp [hdec], ?_, ?_, ?_⟩
            · intro j b hjb
              cases hjb
              exact lt_trans hlt (hbeat a (score a) rfl)
            · intro j hj haj
              rcases List.mem_cons.mp hj with rfl | hj
              · exact hbeat j (score j) rfl
              · exact hpre j hj haj
            · intro j hj hej
              rcases List.mem_cons.mp hj with rfl | hj
              · exact le_of_lt (hbeat j (score j) rfl)
              · exact hle j hj hej
        · -- the head is eligible but does not beat the accumulator
          have hstep : allocStep elig score (some (j0, b0)) a = some (j0, b0) := by
            simp [allocStep, ha, hlt]
          rw [hstep] at h
          rcases ih (some (j0, b0)) i s h with ⟨hacc, hle⟩ | ⟨hel, hs, l₁, l₂, hdec, hbeat, hpre, hle⟩
          · cases hacc
            refine Or.inl ⟨rfl, ?_⟩
            intro j hjm hej
            rcases List.mem_cons.mp hjm with rfl | hjm
            · exact not_lt.mp hlt
            · exact hle j hjm hej
          · refine Or.inr ⟨hel, hs, a :: l₁, l₂, by simp [hdec], ?_, ?_, ?_⟩
            · intro j b hjb
              cases hjb
              exact hbeat j0 b0 rfl
            · intro j hjm haj
              rcases List.mem_cons.mp hjm with rfl | hjm
              · exact lt_of_le_of_lt (not_lt.mp hlt) (hbeat j0 b0 rfl)
              · exact hpre j hjm haj
            · intro j hjm hej
              rcases List.mem_cons.mp hjm with rfl | hjm
              · exact le_of_lt (lt_of_le_of_lt (not_lt.mp hlt) (hbeat j0 b0 rfl))
              · exact hle j hjm hej
    · -- the head is ineligible: the accumulator passes through
      have hstep : allocStep elig score acc a = acc := by
        simp [allocStep, ha]
      rw [hstep] at h
      rcases ih acc i s h with ⟨hacc, hle⟩ | ⟨hel, hs, l₁, l₂, hdec, hbeat, hpre, hle⟩
      · refine Or.inl ⟨hacc, ?_⟩
        intro j hj hej
        rcases List.mem_cons.mp hj with rfl | hj
        · exact absurd hej ha
        · exact hle j hj hej
      · refine Or.inr ⟨hel, hs, a :: l₁, l₂, by simp [hdec], hbeat, ?_, ?_⟩
        · intro j hj haj
          rcases List.mem_cons.mp hj with rfl | hj
          · exact absurd haj ha
          · exact hpre j hj haj
        · intro j hj hej
          rcases List.mem_cons.mp hj with rfl | hj
          · exact absurd hej ha
          · exact hle j hj hej

/-- `allocSelect` returning a winner characterizes it as an eligible bidder
with its own score, first (in bid order) among the eligible bidders
attaining the maximum. -/
lemma allocSelect_spec (w : DWorld) (taxis : List TaxiView) (origin : Coord)
    (bidders : List Nat) (i : Nat) (s : ℚ)
    (h : allocSelect w taxis origin bidders = some (i, s)) :
    eligB taxis i = true ∧ s = allocScore w taxis origin bidders.length i ∧
    ∃ l₁ l₂, bidders = l₁ ++ i :: l₂ ∧
      (∀ j ∈ l₁, eligB taxis j = true →
        allocScore w taxis origin bidders.length j < s) ∧
      (∀ j ∈ bidders, eligB taxis j = true →
        allocScore w taxis origin bidders.length j ≤ s) := by
  rcases selectFold_spec (eligB taxis) (allocScore w taxis origin bidders.length)
      bidders none i s h with ⟨hacc, _⟩ | ⟨hel, hs, l₁, l₂, hdec, _, hpre, hle⟩
  · cases hacc
  · exact ⟨hel, hs, l₁, l₂, hdec, hpre, hle⟩

/-! ## Claim C2 — winners are on duty with positive balance -/

/-- C2: whatever `_allocateFare` does, a recorded winner (a non-negative
`taxi` field after the call, starting from an unallocated fare) is a roster
taxi that is on duty with a strictly positive account; when no bidder is
eligible the fare is returned unchanged with no allocation message; and a
priced, unallocated fare with bidders is routed to `_allocateFare` again on
any later dispatcher tick (any world and roster), so it is reconsidered. -/
theorem claimC2 (w wNext : DWorld) (taxis taxisNext : List TaxiView) (e : FareEntry)
    (hun : e.taxi < 0) :
    (∀ e' msgs, allocateFare w taxis e = (e', msgs) → 0 ≤ e'.taxi →
      ∃ t, taxis.get? e'.taxi.toNat = some t ∧ t.onDuty = true ∧ 0 < t.account) ∧
    ((∀ i ∈ e.bidders, eligB taxis i = false) → allocateFare w taxis e = (e, [])) ∧
    (e.price ≠ 0 → e.bidders ≠ [] →
      tickEntry wNext taxisNext e = allocateFare wNext taxisNext e) := by
  refine ⟨?_, ?_, ?_⟩
  · intro e' msgs heq hge
    cases hsel : allocSelect w taxis e.origin e.bidders with
    | none =>
      rw [allocateFare, hsel] at heq
      cases heq
      exact absurd hge (not_le.mpr hun)
    | some is =>
      rcases is with ⟨i, s⟩
      rw [allocateFare, hsel] at heq
      cases heq
      have hel := (allocSelect_spec w taxis e.origin e.bidders i s hsel).1
      cases hget : taxis.get? i with
      | none => rw [eligB, hget] at hel; cases hel
      | some t =>
        rw [eligB, hget] at hel
        simp only [Bool.and_eq_true, decide_eq_true_eq] at hel
        refine ⟨t, ?_, hel.1, hel.2⟩
        simpa using hget
  · intro hno
    have hsel : allocSelect w taxis e.origin e.bidders = none :=
      selectFold_none _ _ e.bidders none hno
    rw [allocateFare, hsel]
  · intro hp hb
    rw [tickEntry, if_neg hp, if_pos ⟨hun, hb⟩]

/-- Concrete world for the C2 witness scenario. -/
def wC2 : DWorld := ⟨0, fun _ _ => 5, 0, 1, [true]⟩

/-- An on-duty taxi with account 5. -/
def tC2 : TaxiView := ⟨true, 5, (0, 0), 0, 0⟩

/-- A priced, unallocated fare with taxi 0 as its single bidder. -/
def eC2 : FareEntry := ⟨(1, 1), (2, 2), 0, 30, -1, [0]⟩

/-- Witness for C2 at the concrete unallocated fare `eC2`. -/
theorem claimC2_witness :
    (∀ e' msgs, allocateFare wC2 [tC2] eC2 = (e', msgs) → 0 ≤ e'.taxi →
      ∃ t, [tC2].get? e'.taxi.toNat = some t ∧ t.onDuty = true ∧ 0 < t.account) ∧
    ((∀ i ∈ eC2.bidders, eligB [tC2] i = false) → allocateFare wC2 [tC2] eC2 = (eC2, [])) ∧
    (eC2.price ≠ 0 → eC2.bidders ≠ [] →
      tickEntry wC2 [tC2] eC2 = allocateFare wC2 [tC2] eC2) :=
  claimC2 wC2 wC2 [tC2] [tC2] eC2 (by decide)

/-! ## Claim C3 — winner selection and tie-breaking -/

/-- World for the C3 scenario: every travel time is 5 minutes. -/
def w3 : DWorld := ⟨0, fun _ _ => 5, 0, 0, [true]⟩

/-- One taxi view used at both roster indices 0 and 1, so the two bidders
have identical priority scores. -/
def t3 : TaxiView := ⟨true, 10, (0, 0), 0, 0⟩

/-- C3 counterexample: both roster taxis 0 and 1 are eligible with equal
priority scores; taxi 1 bid first, so the bidder list is [1, 0], and the
selection loop keeps the FIRST bidder on a tie (strict `>` in
dispatcher.py line 281).  The recorded winner is taxi 1, not the
lowest-index taxi 0 — refuting the claimed lowest-taxi-index tie-break. -/
theorem claimC3_counterexample :
    (allocSelect w3 [t3, t3] (3, 3) [1, 0]).map Prod.fst = some 1 ∧
    eligB [t3, t3] 0 = true ∧ eligB [t3, t3] 1 = true ∧
    allocScore w3 [t3, t3] (3, 3) 2 0 = allocScore w3 [t3, t3] (3, 3) 2 1 := by
  refine ⟨?_, ?_, ?_, rfl⟩
  · norm_num [allocSelect, allocStep, allocScore, eligB, priorityScore,
      pickupDuration, w3, t3]
  · norm_num [eligB, t3]
  · norm_num [eligB, t3]

/-- C3 as amended: when `_allocateFare` selects a winner among the current
bidders, the winner is an eligible (in-range, on-duty, positive-balance)
bidder carrying the priority score
`0.4·(1/pickup) + 0.3·(1/(1+income)) + 0.2·(idle/1000) + 0.1·(1/(1+bidderCount))`
— with the `0.1` floor applied when the pickup travel time is exactly zero —
that attains the maximum score over all eligible bidders; and among the
eligible bidders attaining the maximum, the winner is the one whose bid
occurs EARLIEST in the fare's bidder list (the first to bid), which need
not be the lowest taxi index. -/
theorem claimC3_amended (w : DWorld) (taxis : List TaxiView) (origin : Coord)
    (bidders : List Nat) (i : Nat) (s : ℚ)
    (h : allocSelect w taxis origin bidders = some (i, s)) :
    (∃ t, taxis.get? i = some t ∧ t.onDuty = true ∧ 0 < t.account ∧
      s = (4/10) * (1 / (if w.travelTime t.loc origin = 0 then 1/10
                         else w.travelTime t.loc origin))
        + (3/10) * (1 / (1 + t.income))
        + (2/10) * ((w.simTime - t.lastFareCompletionTime) / 1000)
        + (1/10) * (1 / (1 + (bidders.length : ℚ)))) ∧
    (∀ j ∈ bidders, eligB taxis j = true →
      allocScore w taxis origin bidders.length j ≤ s) ∧
    (∃ l₁ l₂, bidders = l₁ ++ i :: l₂ ∧
      ∀ j ∈ l₁, eligB taxis j = true →
        allocScore w taxis origin bidders.length j < s) := by
  obtain ⟨hel, hs, l₁, l₂, hdec, hpre, hle⟩ :=
    allocSelect_spec w taxis origin bidders i s h
  refine ⟨?_, hle, l₁, l₂, hdec, hpre⟩
  cases hget : taxis.get? i with
  | none => rw [eligB, hget] at hel; cases hel
  | some t =>
    rw [eligB, hget] at hel
    simp only [Bool.and_eq_true, decide_eq_true_eq] at hel
    refine ⟨t, rfl, hel.1, hel.2, ?_⟩
    rw [hs, allocScore, hget]
    rfl

/-- Witness for the amended C3 at the tie scenario: the winner is bidder 1
(first in the bid list), eligible, score-maximal, with only lower-scoring
eligible bidders before it. -/
theorem claimC3_amended_witness :
    (∃ t, [t3, t3].get? 1 = some t ∧ t.onDuty = true ∧ 0 < t.account ∧
      (31/75 : ℚ) = (4/10) * (1 / (if w3.travelTime t.loc (3, 3) = 0 then 1/10
                         else w3.travelTime t.loc (3, 3)))
        + (3/10) * (1 / (1 + t.income))
        + (2/10) * ((w3.simTime - t.lastFareCompletionTime) / 1000)
        + (1/10) * (1 / (1 + (([1, 0] : List Nat).length : ℚ)))) ∧
    (∀ j ∈ ([1, 0] : List Nat), eligB [t3, t3] j = true →
      allocScore w3 [t3, t3] (3, 3) 2 j ≤ (31/75 : ℚ)) ∧
    (∃ l₁ l₂, ([1, 0] : List Nat) = l₁ ++ 1 :: l₂ ∧
      ∀ j ∈ l₁, eligB [t3, t3] j = true →
        allocScore w3 [t3, t3] (3, 3) 2 j < (31/75 : ℚ)) :=
  claimC3_amended w3 [t3, t3] (3, 3) [1, 0] 1 (31/75) (by
    norm_num [allocSelect, allocStep, allocScore, eligB, priorityScore,
      pickupDuration, w3, t3])

/-! ## Pricing lemmas (for C1 and C4) -/

/-- A dispatcher tick maps every board entry through `tickEntry` in place. -/
lemma boardLookup_clockTick (w : DWorld) (st : DispatcherState) (o d : Coord) (t : Int)
    (hpar : st.parent = w.id) :
    boardLookup (clockTick w st).1.fareBoard o d t =
      (boardLookup st.fareBoard o d t).map (fun e => (tickEntry w st.taxis e).1) := by
  rw [clockTick, if_pos hpar]
  simp only [boardLookup, alLookup_map]
  rcases h1 : alLookup st.fareBoard o with _ | dests
  · simp
  · simp only [Option.map_some']
    rw [alLookup_map]
    rcases h2 : alLookup dests d with _ | times
    · simp
    · simp only [Option.map_some']
      exact alLookup_map (fun e => (tickEntry w st.taxis e).1) times t

/-- An unpriced fare with positive travel time is priced strictly
positively: the supply ratio is at least 1 (or the surge ceiling applies),
so both arguments of the `min` are positive. -/
lemma costFare_pos (w : DWorld) (e : FareEntry)
    (htt : 0 < w.travelTime e.origin e.destination) : 0 < costFare w e := by
  rw [costFare]
  cases hsr : computeSupplyRatio w with
  | none =>
    have : (0 : ℚ) < 10 := by norm_num
    exact mul_pos this htt
  | some sr =>
    have hsr1 : 1 ≤ sr := by
      rw [computeSupplyRatio] at hsr
      split at hsr
      · cases hsr
      · cases hsr; exact le_max_left _ _
    have h25 : (0 : ℚ) < 25 + w.travelTime e.origin e.destination := by linarith
    refine lt_min (mul_pos h25 (by linarith)) ?_
    have : (0 : ℚ) < 10 := by norm_num
    exact mul_pos this htt

/-- A fare that is already priced keeps its price through `tickEntry`
(allocation only touches the `taxi` field). -/
lemma tickEntry_price_of_ne (w : DWorld) (taxis : List TaxiView) (e : FareEntry)
    (hp : e.price ≠ 0) : ((tickEntry w taxis e).1).price = e.price := by
  rw [tickEntry, if_neg hp]
  by_cases hc : e.taxi < 0 ∧ e.bidders ≠ []
  · rw [if_pos hc, allocateFare]
    cases hsel : allocSelect w taxis e.origin e.bidders with
    | none => rfl
    | some is => rcases is with ⟨i, s⟩; rfl
  · rw [if_neg hc]

/-! ## Claim C1 — pricing formula and positivity after one tick -/

/-- C1: a fare on the board of the dispatcher's own world with price still 0
and positive travel time is, after one dispatcher tick, priced at
`min((25 + travelTime(o,d)) · max(1, fareQLen/onDutyCount), 10 · travelTime(o,d))`
— with the ceiling term `10 · travelTime(o,d)` applying outright when no
world taxi is on duty — and this recorded price is strictly positive. -/
theorem claimC1 (w : DWorld) (st : DispatcherState) (o d : Coord) (t : Int) (e : FareEntry)
    (hpar : st.parent = w.id)
    (hl : boardLookup st.fareBoard o d t = some e)
    (hp : e.price = 0) (ho : e.origin = o) (hd : e.destination = d)
    (htt : 0 < w.travelTime o d) :
    ∃ e', boardLookup (clockTick w st).1.fareBoard o d t = some e' ∧
      e'.price = (if activeTaxis w = 0 then 10 * w.travelTime o d
        else min ((25 + w.travelTime o d) *
                    max 1 ((w.fareQLen : ℚ) / (activeTaxis w : ℚ)))
                 (10 * w.travelTime o d)) ∧
      0 < e'.price := by
  subst ho hd
  have hlk := boardLookup_clockTick w st e.origin e.destination t hpar
  rw [hl] at hlk
  have he' : (tickEntry w st.taxis e).1 = { e with price := costFare w e } := by
    rw [tickEntry, if_pos hp]
  refine ⟨(tickEntry w st.taxis e).1, by simpa using hlk, ?_, ?_⟩
  · rw [he']
    show costFare w e = _
    by_cases h0 : activeTaxis w = 0 <;>
      simp [costFare, computeSupplyRatio, h0]
  · rw [he']
    exact costFare_pos w e htt

/-- World for the C1/C4 witness: travel time 7 everywhere, 3 outstanding
fares in the world queue, one of two world taxis on duty. -/
def wW1 : DWorld := ⟨0, fun _ _ => 7, 0, 3, [true, false]⟩

/-- A freshly created, unpriced fare. -/
def eW1 : FareEntry := ⟨(0, 0), (1, 1), 0, 0, -1, []⟩

/-- Dispatcher of world 0 with the single unpriced fare on its board. -/
def stW1 : DispatcherState := ⟨0, 0, [], [((0, 0), [((1, 1), [(0, eW1)])])], 0, 0⟩

/-- Witness for C1: after one tick the concrete fare is priced
min((25+7)·max(1, 3/1), 10·7) = min(96, 70) = 70 > 0. -/
theorem claimC1_witness :
    ∃ e', boardLookup (clockTick wW1 stW1).1.fareBoard (0, 0) (1, 1) 0 = some e' ∧
      e'.price = (if activeTaxis wW1 = 0 then 10 * wW1.travelTime (0, 0) (1, 1)
        else min ((25 + wW1.travelTime (0, 0) (1, 1)) *
                    max 1 ((wW1.fareQLen : ℚ) / (activeTaxis wW1 : ℚ)))
                 (10 * wW1.travelTime (0, 0) (1, 1))) ∧
      0 < e'.price :=
  claimC1 wW1 stW1 (0, 0) (1, 1) 0 eW1 rfl rfl rfl rfl rfl (by norm_num [wW1])

/-! ## Claim C4 — the price is set once and never changes -/

/-- C4: through a dispatcher tick every board entry survives at its key;
an unpriced entry (price 0) with positive travel time is assigned
`_costFare` and becomes non-zero — so the `price == 0` guard can never fire
for it again — while an already-priced entry keeps its price unchanged
(later ticks at most allocate, which only touches the `taxi` field). -/
theorem claimC4 (w : DWorld) (st : DispatcherState) (o d : Coord) (t : Int) (e : FareEntry)
    (hpar : st.parent = w.id)
    (hl : boardLookup st.fareBoard o d t = some e)
    (htt : 0 < w.travelTime e.origin e.destination) :
    ∃ e', boardLookup (clockTick w st).1.fareBoard o d t = some e' ∧
      (e.price = 0 → e'.price = costFare w e ∧ e'.price ≠ 0) ∧
      (e.price ≠ 0 → e'.price = e.price) := by
  have hlk := boardLookup_clockTick w st o d t hpar
  rw [hl] at hlk
  refine ⟨(tickEntry w st.taxis e).1, by simpa using hlk, ?_, ?_⟩
  · intro hp
    have he' : (tickEntry w st.taxis e).1 = { e with price := costFare w e } := by
      rw [tickEntry, if_pos hp]
    rw [he']
    exact ⟨rfl, ne_of_gt (costFare_pos w e htt)⟩
  · intro hp
    exact tickEntry_price_of_ne w st.taxis e hp

/-- An already-priced fare at a second key of the C4 witness board. -/
def eW4 : FareEntry := ⟨(4, 4), (5, 5), 2, 70, -1, []⟩

/-- Dispatcher of world 0 holding the priced fare `eW4`. -/
def stW4 : DispatcherState := ⟨0, 0, [], [((4, 4), [((5, 5), [(2, eW4)])])], 0, 0⟩

/-- Witness for C4 at the priced fare `eW4`: its price-70 entry survives the
tick with price unchanged (and the unpriced branch holds vacuously). -/
theorem claimC4_witness :
    ∃ e', boardLookup (clockTick wW1 stW4).1.fareBoard (4, 4) (5, 5) 2 = some e' ∧
      (eW4.price = 0 → e'.price = costFare wW1 eW4 ∧ e'.price ≠ 0) ∧
      (eW4.price ≠ 0 → e'.price = eW4.price) :=
  claimC4 wW1 stW4 (4, 4) (5, 5) 2 eW4 rfl rfl (by norm_num [wW1])

/-! ## Claim C5 — path planner -/

/-- The C5 counterexample map.  All nodes lie on the x-axis: a direct edge
(5,0) → (6,0) of length 10, and a two-hop route via (100,0) of total
length 2.  Edge weights are strictly positive. -/
def map5 : TaxiMap :=
  [((5, 0), [((6, 0), (0, 10)), ((100, 0), (0, 1))]),
   ((100, 0), [((6, 0), (0, 1))]),
   ((6, 0), [])]

/-- The exact values of the source's Euclidean heuristic
`math.sqrt((a0-b0)**2 + (a1-b1)**2)` on the x-axis (all `map5` nodes have
y = 0, so the distance is exactly `|a0 - b0|`). -/
def hEx : Coord → Coord → ℚ := fun a b => ((a.1 - b.1).natAbs : ℚ)

/-- C5 counterexample: on `map5` (non-negative — indeed positive — stored
edge weights) the planner returns the direct path [(0,0), (1,0)] of
cumulative cost 10, although the valid path [(0,0), (100,0), (1,0)] from
the same origin to the same destination costs 2: the returned waypoint
sequence is NOT of minimal cumulative edge cost.  (The straight-line
heuristic overestimates the tiny edge weights, so A* pops the destination
before the cheap detour is explored.) -/
theorem claimC5_counterexample :
    planPath hEx map5 (5, 0) (6, 0) 10 = .ok (some [(5, 0), (6, 0)]) ∧
    pathCost map5 [(5, 0), (6, 0)] = some 10 ∧
    pathChain map5 [(5, 0), (100, 0), (6, 0)] = true ∧
    ([(5, 0), (100, 0), (6, 0)] : List Coord).head? = some (5, 0) ∧
    ([(5, 0), (100, 0), (6, 0)] : List Coord).getLast? = some (6, 0) ∧
    pathCost map5 [(5, 0), (100, 0), (6, 0)] = some 2 := by
  refine ⟨?_, ?_, ?_, rfl, rfl, ?_⟩
  · norm_num [planPath, planLoop, relaxAll, popMin, entryLt, qiLt, qiAdd,
      initCost, traceBackAux, alLookup, alInsert, pathCost, hEx, map5]
  · norm_num [pathCost, alLookup, map5]
  · norm_num [pathChain, alLookup, map5]
  · norm_num [pathCost, alLookup, map5]

/-! ## Path-planner invariants (for the amended C5) -/

/-- `popMin` returns an element of the heap, and the remaining entries all
come from the heap. -/
lemma popMin_mem :
    ∀ {heap : List (QInf × Coord)} {e : QInf × Coord} {rest : List (QInf × Coord)},
      popMin heap = some (e, rest) → e ∈ heap ∧ ∀ x ∈ rest, x ∈ heap := by
  intro heap
  induction heap with
  | nil => intro e rest h; cases h
  | cons a t ih =>
    intro e rest h
    rw [popMin] at h
    split at h
    · cases h
      exact ⟨List.mem_cons_self a t, by intro x hx; cases hx⟩
    · rename_i mn rest' hm
      split at h
      · cases h
        obtain ⟨hmem, hsub⟩ := ih hm
        refine ⟨List.mem_cons_of_mem a hmem, ?_⟩
        intro x hx
        rcases List.mem_cons.mp hx with rfl | hx
        · exact List.mem_cons_self x t
        · exact List.mem_cons_of_mem a (hsub x hx)
      · cases h
        exact ⟨List.mem_cons_self a t, fun x hx => List.mem_cons_of_mem a hx⟩

/-- Filtering with a weaker predicate keeps at least as many elements. -/
lemma filter_length_mono {α : Type} (p q : α → Bool) (l : List α)
    (himp : ∀ x, p x = true → q x = true) :
    (l.filter p).length ≤ (l.filter q).length := by
  induction l with
  | nil => simp
  | cons a t ih =>
    cases hpa : p a with
    | false =>
      cases hqa : q a with
      | false => simpa [List.filter_cons, hpa, hqa] using ih
      | true =>
        simp only [List.filter_cons, hpa, hqa, if_pos, List.length_cons]
        simp only [Bool.false_eq_true, if_false]
        exact Nat.le_succ_of_le ih
    | true =>
      have hqa := himp a hpa
      simp only [List.filter_cons, hpa, hqa, if_pos, List.length_cons]
      exact Nat.succ_le_succ ih

/-- Filtering with a strictly weaker predicate (witnessed by a member that
the stronger predicate rejects) keeps strictly more elements. -/
lemma filter_length_lt {α : Type} (p q : α → Bool) (l : List α)
    (himp : ∀ x, p x = true → q x = true) (a : α) (ha : a ∈ l)
    (hqa : q a = true) (hpa : p a = false) :
    (l.filter p).length < (l.filter q).length := by
  induction l with
  | nil => cases ha
  | cons b t ih =>
    rcases List.mem_cons.mp ha with rfl | hat
    · simp only [List.filter_cons, hpa, hqa, if_pos, List.length_cons]
      simp only [Bool.false_eq_true, if_false]
      exact Nat.lt_succ_of_le (filter_length_mono p q t himp)
    · cases hpb : p b with
      | false =>
        cases hqb : q b with
        | false => simpa [List.filter_cons, hpb, hqb] using ih hat
        | true =>
          simp only [List.filter_cons, hpb, hqb, if_pos, List.length_cons]
          simp only [Bool.false_eq_true, if_false]
          exact Nat.lt_succ_of_lt (ih hat)
      | true =>
        have hqb := himp b hpb
        simp only [List.filter_cons, hpb, hqb, if_pos, List.length_cons]
        exact Nat.succ_lt_succ (ih hat)

/-- The last element of a list is unchanged by consing onto a non-empty list. -/
lemma getLast?_cons_ne_nil {α : Type} (a : α) {l : List α} (h : l ≠ []) :
    (a :: l).getLast? = l.getLast? := by
  cases l with
  | nil => exact absurd rfl h
  | cons b t => rfl

/-- The loop invariant of the A* search: every heap node has a finite
recorded cost; the origin has cost 0 and no parent; all finite costs are
non-negative; parent-trace edges exist in the map; a child's cost strictly
exceeds its parent's; and every finitely-costed node other than the origin
has a parent. -/
structure PlanInv (m : TaxiMap) (o : Coord) (heap : List (QInf × Coord))
    (cost : List (Coord × QInf)) (trace : List (Coord × Coord)) : Prop where
  heapFin : ∀ pr v, (pr, v) ∈ heap → ∃ c : ℚ, alLookup cost v = some (some c)
  orig0 : alLookup cost o = some (some 0)
  nonneg : ∀ v c, alLookup cost v = some (some c) → 0 ≤ c
  traceEdge : ∀ v u, alLookup trace v = some u →
    ∃ nbrs, alLookup m u = some nbrs ∧ (alLookup nbrs v).isSome
  traceCost : ∀ v u, alLookup trace v = some u →
    ∃ cv cu : ℚ, alLookup cost v = some (some cv) ∧
      alLookup cost u = some (some cu) ∧ cu < cv
  origNoParent : alLookup trace o = none
  parentOf : ∀ v c, alLookup cost v = some (some c) → v ≠ o →
    (alLookup trace v).isSome

/-- Lookup in the initial cost dict away from the origin: the stored value
is the initial `float('inf')` for map keys and absent otherwise. -/
lemma initCost_lookup_ne (m : TaxiMap) (o v : Coord) (hvo : v ≠ o) :
    alLookup (initCost m o) v = (alLookup m v).map (fun _ => (none : QInf)) := by
  rw [initCost, alLookup_insert_ne _ _ _ _ hvo]
  exact alLookup_map (fun _ => (none : QInf)) m v

/-- The invariant holds at the start of the search loop. -/
lemma planInv_init (m : TaxiMap) (o : Coord) :
    PlanInv m o [(some 0, o)] (initCost m o) [] := by
  have hne : ∀ v c, v ≠ o → alLookup (initCost m o) v ≠ some (some c) := by
    intro v c hvo h
    rw [initCost_lookup_ne m o v hvo] at h
    cases hm : alLookup m v with
    | none => rw [hm] at h; cases h
    | some _ => rw [hm] at h; cases h
  refine ⟨?_, ?_, ?_, ?_, ?_, rfl, ?_⟩
  · intro pr v hv
    rcases List.mem_cons.mp hv with heq | hv
    · cases heq
      exact ⟨0, alLookup_insert_self _ _ _⟩
    · cases hv
  · exact alLookup_insert_self _ _ _
  · intro v c hv
    by_cases hvo : v = o
    · subst hvo
      rw [initCost, alLookup_insert_self] at hv
      cases hv
      exact le_refl 0
    · exact absurd hv (hne v c hvo)
  · intro v u hvu; cases hvu
  · intro v u hvu; cases hvu
  · intro v c hv hvo
    exact absurd hv (hne v c hvo)

/-- Relaxation preserves the search invariant: an improved neighbour gets a
finite non-negative cost strictly above its parent's current cost, a parent
edge that exists in the map, and a heap entry; the origin is never improved
because weights are strictly positive and costs non-negative. -/
lemma relaxAll_inv {m : TaxiMap} {o : Coord} (h : Coord → Coord → ℚ) (d : Coord)
    (hw : ∀ kv ∈ m, ∀ nb ∈ kv.2, 0 < nb.2.2)
    (cur : Coord) (nbrs : List (Coord × (Int × ℚ)))
    (hnbrs : alLookup m cur = some nbrs) :
    ∀ (sub : List (Coord × (Int × ℚ))), (∀ x ∈ sub, x ∈ nbrs) →
    ∀ heap cost trace cost' trace' heap',
      PlanInv m o heap cost trace →
      relaxAll h d cur sub cost trace heap = .ok (cost', trace', heap') →
      PlanInv m o heap' cost' trace' := by
  intro sub
  induction sub with
  | nil =>
    intro _ heap cost trace cost' trace' heap' hinv hr
    rw [relaxAll] at hr
    cases hr
    exact hinv
  | cons nd rest ih =>
    rcases nd with ⟨nb, det⟩
    intro hsub heap cost trace cost' trace' heap' hinv hr
    rw [relaxAll] at hr
    split at hr
    · cases hr
    · rename_i costCur hcc
      split at hr
      · cases hr
      · rename_i old hnb
        split at hr
        · rename_i hrel
          obtain ⟨c, rfl⟩ : ∃ c : ℚ, costCur = some c := by
            cases costCur with
            | none => simp [qiAdd, qiLt] at hrel
            | some c => exact ⟨c, rfl⟩
          simp only [qiAdd] at hr
          have hcnn : 0 ≤ c := hinv.nonneg cur c hcc
          have hwpos : 0 < det.2 :=
            hw (cur, nbrs) (alLookup_mem hnbrs) (nb, det)
              (hsub (nb, det) (List.mem_cons_self _ _))
          have hlt' : ∀ cb : ℚ, old = some cb → c + det.2 < cb := by
            intro cb hcb
            subst hcb
            simpa [qiAdd, qiLt] using hrel
          have hnbcur : nb ≠ cur := by
            intro heq
            subst heq
            rw [hcc] at hnb
            cases hnb
            have := hlt' c rfl
            linarith
          have hnbo : nb ≠ o := by
            intro heq
            subst heq
            rw [hinv.orig0] at hnb
            cases hnb
            have := hlt' 0 rfl
            linarith
          have hinv' : PlanInv m o
              (heap ++ [(some (c + det.2 + h nb d), nb)])
              (alInsert cost nb (some (c + det.2)))
              (alInsert trace nb cur) := by
            refine ⟨?_, ?_, ?_, ?_, ?_, ?_, ?_⟩
            · intro pr v hv
              rcases List.mem_append.mp hv with hv | hv
              · obtain ⟨cf, hcf⟩ := hinv.heapFin pr v hv
                by_cases hveq : v = nb
                · subst hveq
                  exact ⟨c + det.2, alLookup_insert_self _ _ _⟩
                · exact ⟨cf, by rw [alLookup_insert_ne _ _ _ _ hveq]; exact hcf⟩
              · cases List.mem_singleton.mp hv
                exact ⟨c + det.2, alLookup_insert_self _ _ _⟩
            · rw [alLookup_insert_ne _ _ _ _ (Ne.symm hnbo)]
              exact hinv.orig0
            · intro v cv hv
              by_cases hveq : v = nb
              · subst hveq
                rw [alLookup_insert_self] at hv
                cases hv
                linarith
              · rw [alLookup_insert_ne _ _ _ _ hveq] at hv
                exact hinv.nonneg v cv hv
            · intro v u hvu
              by_cases hveq : v = nb
              · subst hveq
                rw [alLookup_insert_self] at hvu
                cases hvu
                exact ⟨nbrs, hnbrs,
                  alLookup_isSome_of_mem (hsub _ (List.mem_cons_self _ _))⟩
              · rw [alLookup_insert_ne _ _ _ _ hveq] at hvu
                exact hinv.traceEdge v u hvu
            · intro v u hvu
              by_cases hveq : v = nb
              · subst hveq
                rw [alLookup_insert_self] at hvu
                cases hvu
                refine ⟨c + det.2, c, alLookup_insert_self _ _ _, ?_, by linarith⟩
                rw [alLookup_insert_ne _ _ _ _ (Ne.symm hnbcur)]
                exact hcc
              · rw [alLookup_insert_ne _ _ _ _ hveq] at hvu
                obtain ⟨cv, cu, hcv, hcu, hlt2⟩ := hinv.traceCost v u hvu
                by_cases hueq : u = nb
                · subst hueq
                  refine ⟨cv, c + det.2, ?_, alLookup_insert_self _ _ _, ?_⟩
                  · rw [alLookup_insert_ne _ _ _ _ hveq]
                    exact hcv
                  · have hocb : old = some cu := by
                      rw [hnb] at hcu
                      exact Option.some.inj hcu
                    have := hlt' cu hocb
                    linarith
                · refine ⟨cv, cu, ?_, ?_, hlt2⟩
                  · rw [alLookup_insert_ne _ _ _ _ hveq]
                    exact hcv
                  · rw [alLookup_insert_ne _ _ _ _ hueq]
                    exact hcu
            · rw [alLookup_insert_ne _ _ _ _ (Ne.symm hnbo)]
              exact hinv.origNoParent
            · intro v cv hv hvo
              by_cases hveq : v = nb
              · subst hveq
                rw [alLookup_insert_self]
                rfl
              · rw [alLookup_insert_ne _ _ _ _ hveq] at hv
                rw [alLookup_insert_ne _ _ _ _ hveq]
                exact hinv.parentOf v cv hv hvo
          exact ih (fun x hx => hsub x (List.mem_cons_of_mem _ hx))
            _ _ _ _ _ _ hinv' hr
        · exact ih (fun x hx => hsub x (List.mem_cons_of_mem _ hx))
            _ _ _ _ _ _ hinv hr

/-- Termination measure for the reconstruction: trace entries whose child's
recorded cost is at most `c`.  Costs decrease strictly along parent links,
so each reconstruction step shrinks this set. -/
def filterLE (cost : List (Coord × QInf)) (c : ℚ) : Coord × Coord → Bool := fun vu =>
  match alLookup cost vu.1 with
  | some (some cv) => decide (cv ≤ c)
  | _ => false

/-- The reconstruction loop of `_planPath`, run with enough fuel, succeeds
and prepends the ancestor chain of `cur`, ending at the origin: parent
costs decrease strictly (so the chain cannot revisit a node), every
finitely-costed non-origin node has a parent, and each parent link is a map
edge. -/
lemma traceBackAux_valid (m : TaxiMap) (cost : List (Coord × QInf))
    (trace : List (Coord × Coord)) (o : Coord)
    (hTE : ∀ v u, alLookup trace v = some u →
      ∃ nbrs, alLookup m u = some nbrs ∧ (alLookup nbrs v).isSome)
    (hTC : ∀ v u, alLookup trace v = some u →
      ∃ cv cu : ℚ, alLookup cost v = some (some cv) ∧
        alLookup cost u = some (some cu) ∧ cu < cv)
    (hPO : ∀ v c, alLookup cost v = some (some c) → v ≠ o →
      (alLookup trace v).isSome) :
    ∀ (fuel : Nat) (cur : Coord) (acc : List Coord) (c : ℚ),
      alLookup cost cur = some (some c) →
      (trace.filter (filterLE cost c)).length < fuel →
      acc.head? = some cur →
      pathChain m acc = true →
      ∃ res, traceBackAux trace fuel cur acc = .ok res ∧
        res.head? = some o ∧ res.getLast? = acc.getLast? ∧
        pathChain m res = true := by
  intro fuel
  induction fuel with
  | zero => intro cur acc c hc hm hh hch; exact absurd hm (Nat.not_lt_zero _)
  | succ fuel ih =>
    intro cur acc c hc hm hh hch
    cases hpar : alLookup trace cur with
    | none =>
      have hco : cur = o := by
        by_contra hne
        have hsome := hPO cur c hc hne
        rw [hpar] at hsome
        simp at hsome
      rw [traceBackAux, hpar]
      exact ⟨acc, rfl, by rw [hh, hco], rfl, hch⟩
    | some u =>
      rw [traceBackAux, hpar]
      obtain ⟨cv, cu, hcv, hcu, hlt⟩ := hTC cur u hpar
      have hcveq : c = cv := by
        rw [hc] at hcv
        exact Option.some.inj (Option.some.inj hcv)
      subst hcveq
      have hmeasure : (trace.filter (filterLE cost cu)).length < fuel := by
        have himp : ∀ x, filterLE cost cu x = true → filterLE cost c x = true := by
          intro x hx
          unfold filterLE at hx ⊢
          cases hl : alLookup cost x.1 with
          | none => simp [hl] at hx
          | some oc =>
            cases oc with
            | none => simp [hl] at hx
            | some cx =>
              simp only [hl, decide_eq_true_eq] at hx ⊢
              linarith
        have hq : filterLE cost c (cur, u) = true := by
          unfold filterLE
          rw [hc]
          simp
        have hp : filterLE cost cu (cur, u) = false := by
          unfold filterLE
          rw [hc]
          simp only [decide_eq_false_iff_not, not_le]
          exact hlt
        have hstrict := filter_length_lt (filterLE cost cu) (filterLE cost c)
          trace himp (cur, u) (alLookup_mem hpar) hq hp
        omega
      have haccnil : acc ≠ [] := by
        intro hn
        rw [hn] at hh
        cases hh
      have hch' : pathChain m (u :: acc) = true := by
        obtain ⟨nbrs, hnm, hnn⟩ := hTE cur u hpar
        cases acc with
        | nil => exact absurd rfl haccnil
        | cons a rest =>
          have haeq : a = cur := by simpa using hh
          show ((match alLookup m u with
                 | none => false
                 | some nbrs => (alLookup nbrs a).isSome) && pathChain m (a :: rest)) = true
          rw [hnm, haeq, Bool.and_eq_true]
          rw [haeq] at hch
          exact ⟨hnn, hch⟩
      obtain ⟨res, hres, h1, h2, h3⟩ := ih u (u :: acc) cu hcu hmeasure rfl hch'
      refine ⟨res, hres, h1, ?_, h3⟩
      rw [h2, getLast?_cons_ne_nil u haccnil]

/-- The A* loop of `_planPath` only ever returns a path that starts at the
origin, ends at the destination, and follows map edges — provided all
stored edge weights are strictly positive. -/
lemma planLoop_valid {m : TaxiMap} {o d : Coord} (h : Coord → Coord → ℚ)
    (hw : ∀ kv ∈ m, ∀ nb ∈ kv.2, 0 < nb.2.2) :
    ∀ (fuel : Nat) (heap : List (QInf × Coord)) (cost : List (Coord × QInf))
      (trace : List (Coord × Coord)),
      PlanInv m o heap cost trace →
      ∀ p, planLoop h m d fuel heap cost trace = .ok (some p) →
        p.head? = some o ∧ p.getLast? = some d ∧ pathChain m p = true := by
  intro fuel
  induction fuel with
  | zero =>
    intro heap cost trace hinv p hp
    rw [planLoop] at hp
    cases hp
  | succ fuel ih =>
    intro heap cost trace hinv p hp
    rw [planLoop] at hp
    split at hp
    · simp at hp
    · rename_i pr cur heap' hpop
      obtain ⟨hmemE, hsub⟩ := popMin_mem hpop
      split at hp
      · rename_i hcd
        obtain ⟨c, hc⟩ := hinv.heapFin pr cur hmemE
        have hmeas : (trace.filter (filterLE cost c)).length < trace.length + 1 :=
          Nat.lt_succ_of_le (List.length_filter_le _ _)
        obtain ⟨res, hres, h1, h2, h3⟩ :=
          traceBackAux_valid m cost trace o hinv.traceEdge hinv.traceCost
            hinv.parentOf (trace.length + 1) cur [cur] c hc hmeas rfl rfl
        rw [hres] at hp
        have hpres : p = res := by
          simpa using hp.symm
        subst hpres
        refine ⟨h1, ?_, h3⟩
        rw [h2]
        simp [hcd]
      · rename_i hcd
        split at hp
        · cases hp
        · rename_i nbrs hm
          split at hp
          · rename_i cost' trace' heap'' hrel
            have hinv' : PlanInv m o heap' cost trace :=
              { hinv with heapFin := fun pr v hv => hinv.heapFin pr v (hsub _ hv) }
            have hinv'' := relaxAll_inv h d hw cur nbrs hm nbrs (fun x hx => hx)
              heap' cost trace cost' trace' heap'' hinv' hrel
            exact ih heap'' cost' trace' hinv'' p hp
          · cases hp

/-- C5 as amended: when the origin or destination is absent from the
taxi's map, `_planPath` returns the explicit unreachable result (`None`);
and — under strictly positive stored edge weights — any waypoint sequence
it returns starts at the origin, ends at the destination and follows map
edges.  The sequence's cumulative edge cost need NOT be minimal among all
paths: the straight-line heuristic can overestimate arbitrary stored
weights, in which case A* may return a costlier path (see the
counterexample); minimality would additionally require the heuristic to be
consistent with the stored weights. -/
theorem claimC5_amended (h : Coord → Coord → ℚ) (m : TaxiMap) (o d : Coord)
    (fuel : Nat) (hw : ∀ kv ∈ m, ∀ nb ∈ kv.2, 0 < nb.2.2) :
    (((alLookup m o).isNone ∨ (alLookup m d).isNone) →
      planPath h m o d fuel = .ok none) ∧
    (∀ p, planPath h m o d fuel = .ok (some p) →
      p.head? = some o ∧ p.getLast? = some d ∧ pathChain m p = true) := by
  constructor
  · intro habs
    rw [planPath, if_pos habs]
  · intro p hp
    rw [planPath] at hp
    by_cases habs : (alLookup m o).isNone ∨ (alLookup m d).isNone
    · rw [if_pos habs] at hp
      simp at hp
    · rw [if_neg habs] at hp
      by_cases heq : o = d
      · rw [if_pos heq] at hp
        have hpo : p = [o] := by simpa using hp.symm
        subst hpo
        exact ⟨rfl, by simp [heq], rfl⟩
      · rw [if_neg heq] at hp
        exact planLoop_valid h hw fuel _ _ _ (planInv_init m o) p hp

/-- Witness for the amended C5 on the concrete `map5` (all weights
positive): the direct result path [(5,0), (6,0)] indeed starts at the
origin, ends at the destination and follows map edges, and an absent
origin yields the unreachable result. -/
theorem claimC5_amended_witness :
    (((alLookup map5 (5, 0)).isNone ∨ (alLookup map5 (6, 0)).isNone) →
      planPath hEx map5 (5, 0) (6, 0) 10 = .ok none) ∧
    (∀ p, planPath hEx map5 (5, 0) (6, 0) 10 = .ok (some p) →
      p.head? = some (5, 0) ∧ p.getLast? = some (6, 0) ∧
      pathChain map5 p = true) :=
  claimC5_amended hEx map5 (5, 0) (6, 0) 10 (by decide)

end RoboUber
